import Mathlib

/-!
Verification of the specflow task-execution engine specification against the
source in `src/specflow`.  Each component the claims touch is shallowly
embedded: SQL tables become association lists, SQL queries become Lean list
operations, subprocess results become oracle functions, timestamps become
naturals (ISO-8601 strings of a single run compare like their instants).
All definitions are translated from the Python source; the one definition
translated from the specification's words instead is marked as such in its
doc comment.
-/

namespace Specflow

/-! ## Store data model (`specflow/core/database.py`) -/

/-- Task status values (`TaskStatus` in `database.py`). -/
inductive TaskStatus
| todo
| implementing
| testing
| reviewing
| done
deriving DecidableEq, Repr

/-- `CompletionCriteria` (`database.py`): per-agent exit condition.
`verification_method` is the enum value string; `verification_config` is
the decoded JSON mapping, modelled as an association list. -/
structure CompletionCriteria where
  promise : String
  description : String
  verification_method : String
  verification_config : List (String × String)
deriving DecidableEq, Repr

/-- `TaskCompletionSpec` (`database.py`). -/
structure TaskCompletionSpec where
  outcome : String
  acceptance_criteria : List String
  coder : Option CompletionCriteria
  reviewer : Option CompletionCriteria
  tester : Option CompletionCriteria
  qa : Option CompletionCriteria
deriving DecidableEq, Repr

/-- The `Spec` record of `database.py`.  `status` is the `SpecStatus` enum
value string (`draft` … `archived`); timestamps are naturals. -/
structure Spec where
  id : String
  title : String
  status : String
  source_type : Option String
  created_at : Nat
  updated_at : Nat
  metadata : List (String × String)
deriving DecidableEq, Repr

/-- The `Task` record of `database.py` / a row of the `tasks` table.
`dependencies` is the decoded JSON list; `created_at` and `updated_at` are
modelled as naturals (ISO-8601 strings of one run compare
chronologically); `metadata` is the decoded JSON mapping.
`completion_spec` models the content of the normalized completion-spec
side tables keyed by this task's id (where a claim needs the two-table
layout itself, C7 models it separately). -/
structure Task where
  id : String
  spec_id : String
  title : String
  description : String
  status : TaskStatus
  priority : Nat
  dependencies : List String
  assignee : Option String
  worktree : Option String
  iteration : Nat
  created_at : Nat
  updated_at : Nat
  metadata : List (String × String)
  completion_spec : Option TaskCompletionSpec
deriving DecidableEq, Repr

/-- The `ORDER BY priority DESC, created_at ASC` sort key used by
`Database.list_tasks`. -/
def taskOrd (a b : Task) : Prop :=
  b.priority < a.priority ∨ (a.priority = b.priority ∧ a.created_at ≤ b.created_at)

instance : DecidableRel taskOrd := fun a b => by
  unfold taskOrd; exact inferInstance

instance : IsTotal Task taskOrd := by
  constructor; intro a b; unfold taskOrd; omega

instance : IsTrans Task taskOrd := by
  constructor; intro a b c hab hbc; unfold taskOrd at *; omega

/-- The sort key the specification asserts for `ListTasks`:
`priority asc, created_at asc`.  Modelled from the spec, for comparison
with `taskOrd` above. -/
def specTaskOrd (a b : Task) : Prop :=
  a.priority < b.priority ∨ (a.priority = b.priority ∧ a.created_at ≤ b.created_at)

instance : DecidableRel specTaskOrd := fun a b => by
  unfold specTaskOrd; exact inferInstance

/-- The `WHERE spec_id = ?` filter of `list_tasks` (absent when the filter
argument is `None`). -/
def spec_match (spec_id : Option String) (t : Task) : Bool :=
  match spec_id with
  | none => true
  | some s => t.spec_id == s

/-- The `WHERE status = ?` filter of `list_tasks`. -/
def status_match (status : Option TaskStatus) (t : Task) : Bool :=
  match status with
  | none => true
  | some s => t.status == s

/-- `Database.list_tasks`: filter by the optional `spec_id` and `status`,
`ORDER BY priority DESC, created_at ASC`. -/
def list_tasks (db : List Task) (spec_id : Option String) (status : Option TaskStatus) :
    List Task :=
  List.insertionSort taskOrd
    (db.filter (fun t => spec_match spec_id t && status_match status t))

/-- The set of `DONE` task ids computed inside `Database.get_ready_tasks`. -/
def done_ids (db : List Task) (spec_id : Option String) : List String :=
  (list_tasks db spec_id (some TaskStatus.done)).map Task.id

/-- `Database.get_ready_tasks`: the `TODO` tasks of `list_tasks` whose
declared dependencies are all among the `DONE` ids of the same scope. -/
def get_ready_tasks (db : List Task) (spec_id : Option String) : List Task :=
  (list_tasks db spec_id (some TaskStatus.todo)).filter
    (fun t => t.dependencies.all (fun d => (done_ids db spec_id).elem d))

/-- The `ORDER BY updated_at DESC` key of `get_tasks_updated_since`. -/
def updOrd (a b : Task) : Prop := b.updated_at ≤ a.updated_at

instance : DecidableRel updOrd := fun a b => by
  unfold updOrd; exact inferInstance

instance : IsTotal Task updOrd := by
  constructor; intro a b; unfold updOrd; omega

instance : IsTrans Task updOrd := by
  constructor; intro a b c hab hbc; unfold updOrd at *; omega

/-- `Database.get_tasks_updated_since`: tasks of the spec whose
`updated_at` is strictly greater than the cursor, `ORDER BY updated_at
DESC`. -/
def get_tasks_updated_since (db : List Task) (spec_id : String) (since : Nat) :
    List Task :=
  List.insertionSort updOrd
    (db.filter (fun t => t.spec_id == spec_id && decide (since < t.updated_at)))

end Specflow

namespace Specflow

/-! ### Facts about the store queries -/

theorem mem_list_tasks (db : List Task) (sid : Option String) (st : Option TaskStatus)
    (t : Task) :
    t ∈ list_tasks db sid st ↔
      t ∈ db ∧ spec_match sid t = true ∧ status_match st t = true := by
  unfold list_tasks
  rw [List.mem_insertionSort, List.mem_filter, Bool.and_eq_true]

theorem sorted_list_tasks (db : List Task) (sid : Option String) (st : Option TaskStatus) :
    List.Sorted taskOrd (list_tasks db sid st) :=
  List.sorted_insertionSort taskOrd _

theorem mem_done_ids (db : List Task) (sid : Option String) (d : String) :
    d ∈ done_ids db sid ↔
      ∃ u, u ∈ db ∧ spec_match sid u = true ∧ u.status = TaskStatus.done ∧ u.id = d := by
  unfold done_ids
  simp only [List.mem_map, mem_list_tasks]
  constructor
  · rintro ⟨u, ⟨hu, hs, hst⟩, hid⟩
    refine ⟨u, hu, hs, ?_, hid⟩
    simpa [status_match] using hst
  · rintro ⟨u, hu, hs, hst, hid⟩
    exact ⟨u, ⟨hu, hs, by simp [status_match, hst]⟩, hid⟩

theorem mem_get_ready_tasks (db : List Task) (sid : Option String) (t : Task) :
    t ∈ get_ready_tasks db sid ↔
      t ∈ db ∧ spec_match sid t = true ∧ t.status = TaskStatus.todo ∧
        ∀ d ∈ t.dependencies, d ∈ done_ids db sid := by
  unfold get_ready_tasks
  rw [List.mem_filter, mem_list_tasks]
  simp only [List.all_eq_true, List.elem_iff]
  constructor
  · rintro ⟨⟨hdb, hs, hst⟩, hdep⟩
    refine ⟨hdb, hs, ?_, hdep⟩
    simpa [status_match] using hst
  · rintro ⟨hdb, hs, hst, hdep⟩
    exact ⟨⟨hdb, hs, by simp [status_match, hst]⟩, hdep⟩

/-! ### Claim C1 -/

/-- Example store for C1: two ready tasks of spec `s`, priorities 1 and 3,
equal creation times. -/
def c1TaskB : Task :=
  { id := "B", spec_id := "s", title := "", description := "",
    status := TaskStatus.todo, priority := 1, dependencies := [],
    assignee := none, worktree := none, iteration := 0,
    created_at := 0, updated_at := 0, metadata := [], completion_spec := none }

def c1TaskC : Task :=
  { c1TaskB with id := "C", priority := 3 }

def c1Db : List Task := [c1TaskB, c1TaskC]

/-- C1, counterexample: with two ready tasks of priorities 1 and 3,
`get_ready_tasks` returns the priority-3 task first — the output is not
ordered by priority ascending as the claim states (`list_tasks` sorts
`priority DESC`). -/
theorem c1_counterexample :
    (get_ready_tasks c1Db (some "s")).map Task.priority = [3, 1] ∧
      ¬ List.Sorted specTaskOrd (get_ready_tasks c1Db (some "s")) := by
  constructor
  · decide
  · have he : get_ready_tasks c1Db (some "s") = [c1TaskC, c1TaskB] := by decide
    rw [he]
    intro h
    have := List.rel_of_sorted_cons h c1TaskB (by simp)
    revert this
    decide

/-- C1 (amended): `get_ready_tasks` returns exactly the `todo` tasks of the
requested scope all of whose declared dependencies are ids of `done` tasks
of the same scope, as a subsequence of `list_tasks` output, which is
ordered by priority DESCENDING (priority 3 before priority 1), ties broken
by `created_at` ascending. -/
theorem c1_get_ready_tasks_amended (db : List Task) (sid : Option String) :
    (∀ t, t ∈ get_ready_tasks db sid ↔
        t ∈ db ∧ spec_match sid t = true ∧ t.status = TaskStatus.todo ∧
          ∀ d ∈ t.dependencies,
            ∃ u, u ∈ db ∧ spec_match sid u = true ∧
              u.status = TaskStatus.done ∧ u.id = d) ∧
    List.Sorted taskOrd (get_ready_tasks db sid) ∧
    (get_ready_tasks db sid).Sublist (list_tasks db sid (some TaskStatus.todo)) := by
  refine ⟨?_, ?_, ?_⟩
  · intro t
    rw [mem_get_ready_tasks]
    constructor
    · rintro ⟨hdb, hs, hst, hdep⟩
      exact ⟨hdb, hs, hst, fun d hd => (mem_done_ids db sid d).mp (hdep d hd)⟩
    · rintro ⟨hdb, hs, hst, hdep⟩
      exact ⟨hdb, hs, hst, fun d hd => (mem_done_ids db sid d).mpr (hdep d hd)⟩
  · exact List.Pairwise.sublist (List.filter_sublist _) (sorted_list_tasks db sid _)
  · exact List.filter_sublist _

/-! ### Claim C10 -/

/-- C10: `get_tasks_updated_since` returns exactly the tasks of the spec
whose `updated_at` is strictly greater than the cursor (a task whose
`updated_at` equals the cursor is excluded), ordered by `updated_at`
descending. -/
theorem c10_get_tasks_updated_since (db : List Task) (sid : String) (c : Nat) :
    (∀ t, t ∈ get_tasks_updated_since db sid c ↔
        t ∈ db ∧ t.spec_id = sid ∧ c < t.updated_at) ∧
    List.Sorted updOrd (get_tasks_updated_since db sid c) := by
  constructor
  · intro t
    unfold get_tasks_updated_since
    rw [List.mem_insertionSort, List.mem_filter]
    simp
  · exact List.sorted_insertionSort updOrd _

/-! ## Substring containment (Python `in` on `str`) -/

/-- Python's substring test `pat in hay`, on character lists. -/
def containsSub (hay pat : List Char) : Bool :=
  hay.tails.any (fun suf => pat.isPrefixOf suf)

/-- `containsSub` decides the infix relation. -/
theorem containsSub_iff (hay pat : List Char) :
    containsSub hay pat = true ↔ pat <:+: hay := by
  unfold containsSub
  rw [List.any_eq_true]
  constructor
  · rintro ⟨suf, hsuf, hpre⟩
    rw [List.mem_tails] at hsuf
    rw [List.isPrefixOf_iff_prefix] at hpre
    exact List.infix_iff_prefix_suffix.mpr ⟨suf, hpre, hsuf⟩
  · intro h
    obtain ⟨suf, hpre, hsuf⟩ := List.infix_iff_prefix_suffix.mp h
    exact ⟨suf, (List.mem_tails suf hay).mpr hsuf, List.isPrefixOf_iff_prefix.mpr hpre⟩

/-- Python `str.upper()` (the indicator strings are ASCII). -/
def upperStr (s : List Char) : List Char := s.map Char.toUpper

/-- Python `str.lower()`. -/
def lowerStr (s : List Char) : List Char := s.map Char.toLower

/-! ## Pipeline output classification
(`ExecutionPipeline._check_stage_success` in `orchestration/execution.py`) -/

/-- The `success_indicators` list of `_check_stage_success`. -/
def success_indicators : List (List Char) :=
  ["IMPLEMENTATION COMPLETE".toList, "REVIEW PASSED".toList, "TESTS PASSED".toList,
   "QA PASSED".toList, "STATUS: SUCCESS".toList, "PASS".toList]

/-- The `failure_indicators` list of `_check_stage_success`. -/
def failure_indicators : List (List Char) :=
  ["BLOCKED:".toList, "REVIEW FAILED".toList, "TESTS FAILED".toList,
   "QA FAILED".toList, "ERROR:".toList, "FAILED".toList, "TIMEOUT:".toList]

/-- `ExecutionPipeline._check_stage_success(stage, output)`.  The `stage`
argument is unused by the source body: the same indicator lists apply to
every stage. -/
def check_stage_success (output : List Char) : Bool :=
  if success_indicators.any (fun p => containsSub (upperStr output) p) then true
  else if failure_indicators.any (fun p => containsSub (upperStr output) p) then false
  else decide (100 < output.length) && !(containsSub (lowerStr output) "error".toList)

/-- Modelled from the spec: the classification C2 asserts for the coder
stage — success iff the output contains `IMPLEMENTATION COMPLETE`
(case-insensitive); failure if it contains `BLOCKED:`, `ERROR:`, `FAILED`
or `TIMEOUT:`; with no indicator, success iff length ≥ 100 and no
case-insensitive `error`. -/
def claim_coder_classify (output : List Char) : Bool :=
  if containsSub (upperStr output) "IMPLEMENTATION COMPLETE".toList then true
  else if ["BLOCKED:".toList, "ERROR:".toList, "FAILED".toList, "TIMEOUT:".toList].any
      (fun p => containsSub (upperStr output) p) then false
  else decide (100 ≤ output.length) && !(containsSub (lowerStr output) "error".toList)

/-- C2, counterexample: the coder-stage output `TESTS PASSED` (length 12,
no coder indicator per the claim) is classified as failed by the claim but
as successful by `_check_stage_success`, whose indicator lists are shared
by all stages. -/
theorem c2_counterexample :
    check_stage_success "TESTS PASSED".toList = true ∧
      claim_coder_classify "TESTS PASSED".toList = false := by
  constructor <;> decide

/-- C2 (amended): `_check_stage_success` (applied by `_execute_stage` only
when the agent subprocess exited nonzero) is stage-independent: the
iteration is classified successful iff the uppercased output contains one
of the six success indicators (`IMPLEMENTATION COMPLETE`, `REVIEW PASSED`,
`TESTS PASSED`, `QA PASSED`, `STATUS: SUCCESS`, `PASS`), or else contains
none of the seven failure indicators (`BLOCKED:`, `REVIEW FAILED`,
`TESTS FAILED`, `QA FAILED`, `ERROR:`, `FAILED`, `TIMEOUT:`) while the
output length is strictly greater than 100 and the lowercased output does
not contain `error`. -/
theorem c2_check_stage_success_amended (output : List Char) :
    check_stage_success output = true ↔
      (∃ p ∈ success_indicators, p <:+: upperStr output) ∨
      ((∀ p ∈ failure_indicators, ¬ p <:+: upperStr output) ∧
        100 < output.length ∧ ¬ ("error".toList <:+: lowerStr output)) := by
  unfold check_stage_success
  by_cases hs : success_indicators.any (fun p => containsSub (upperStr output) p) = true
  · rw [if_pos hs]
    obtain ⟨p, hp, hc⟩ := List.any_eq_true.mp hs
    exact iff_of_true rfl (Or.inl ⟨p, hp, (containsSub_iff _ _).mp hc⟩)
  · rw [if_neg hs]
    have hnos : ¬ ∃ p ∈ success_indicators, p <:+: upperStr output := by
      intro ⟨p, hp, hinf⟩
      exact hs (List.any_eq_true.mpr ⟨p, hp, (containsSub_iff _ _).mpr hinf⟩)
    by_cases hf : failure_indicators.any (fun p => containsSub (upperStr output) p) = true
    · rw [if_pos hf]
      refine iff_of_false Bool.false_ne_true ?_
      rintro (habs | ⟨hnof, -, -⟩)
      · exact hnos habs
      · obtain ⟨p, hp, hc⟩ := List.any_eq_true.mp hf
        exact hnof p hp ((containsSub_iff _ _).mp hc)
    · rw [if_neg hf]
      have hnof : ∀ p ∈ failure_indicators, ¬ p <:+: upperStr output := by
        intro p hp hinf
        exact hf (List.any_eq_true.mpr ⟨p, hp, (containsSub_iff _ _).mpr hinf⟩)
      constructor
      · intro h
        rw [Bool.and_eq_true] at h
        obtain ⟨hlen, herr⟩ := h
        refine Or.inr ⟨hnof, by simpa using hlen, ?_⟩
        intro hinf
        rw [Bool.not_eq_true', ← Bool.not_eq_true] at herr
        exact herr ((containsSub_iff _ _).mpr hinf)
      · rintro (habs | ⟨-, hlen, herr⟩)
        · exact absurd habs hnos
        · rw [Bool.and_eq_true]
          refine ⟨by simpa using hlen, ?_⟩
          rw [Bool.not_eq_true', ← Bool.not_eq_true]
          intro hc
          exact herr ((containsSub_iff _ _).mp hc)

/-! ## Pipeline iteration loop (`ExecutionPipeline.execute_task`) -/

/-- Agent roles (`AgentType` in `orchestration/agent_pool.py`). -/
inductive AgentType
| coder
| reviewer
| tester
| qa
deriving DecidableEq, Repr

/-- A pipeline stage (`PipelineStage` dataclass). -/
structure PipelineStage where
  name : String
  agent_type : AgentType
  max_iterations : Nat
deriving DecidableEq, Repr

/-- `ExecutionPipeline.DEFAULT_PIPELINE`. -/
def DEFAULT_PIPELINE : List PipelineStage :=
  [⟨"Implementation", AgentType.coder, 3⟩,
   ⟨"Code Review", AgentType.reviewer, 2⟩,
   ⟨"Testing", AgentType.tester, 2⟩,
   ⟨"QA Validation", AgentType.qa, 10⟩]

/-- `ExecutionPipeline._get_stage_status`. -/
def stage_status : AgentType → TaskStatus
  | AgentType.coder => TaskStatus.implementing
  | AgentType.reviewer => TaskStatus.reviewing
  | AgentType.tester => TaskStatus.testing
  | AgentType.qa => TaskStatus.reviewing

/-- The mutable task fields `execute_task` writes through
`self.project.db.update_task`. -/
structure PipeTaskState where
  status : TaskStatus
  iteration : Nat
  failure_stage : Option String
  failure_reason : Option String
deriving DecidableEq, Repr

/-- Result of a pipeline run: the returned boolean, the final value of the
local `total_iterations`, the final task fields, and — as an observation of
the control flow — the number of pipeline stages never entered because the
run stopped early. -/
structure PipeResult where
  success : Bool
  total : Nat
  ts : PipeTaskState
  skipped : Nat
deriving DecidableEq, Repr

/-- The inner `while iteration < stage.max_iterations and total_iterations
< self.max_total_iterations` loop of `execute_task`, one stage.  The loop
counts the remaining per-stage budget down (`remaining = stage.max_iterations
- iteration`), so the source's `iteration < stage.max_iterations` guard is
the `remaining+1` pattern and its post-failure `iteration >=
stage.max_iterations` test is `remaining = 0`.  `results k` / `outputs k`
are the success flag and output of the `k`-th agent invocation of the whole
run (`k` = `total_iterations` after its increment). -/
def run_stage_loop (results : Nat → Bool) (outputs : Nat → String)
    (stage : PipelineStage) (maxTotal : Nat) :
    Nat → Nat → PipeTaskState → Bool × Nat × PipeTaskState
  | 0, total, ts => (false, total, ts)
  | remaining + 1, total, ts =>
    if total < maxTotal then
      let total1 := total + 1
      let ts1 : PipeTaskState :=
        { ts with status := stage_status stage.agent_type, iteration := total1 }
      if results total1 then (true, total1, ts1)
      else if remaining = 0 then
        (false, total1,
          { ts1 with status := TaskStatus.todo,
                     failure_stage := some stage.name,
                     failure_reason := some ((outputs total1).take 1000) })
      else run_stage_loop results outputs stage maxTotal remaining total1 ts1
    else (false, total, ts)

/-- The stage loop of `execute_task`: run the stages in order, stopping at
the first stage whose loop ends without success; on all stages passing, set
the task status to `DONE`. -/
def execute_task_aux (results : Nat → Bool) (outputs : Nat → String)
    (maxTotal : Nat) : List PipelineStage → Nat → PipeTaskState → PipeResult
  | [], total, ts => ⟨true, total, { ts with status := TaskStatus.done }, 0⟩
  | stage :: rest, total, ts =>
    match run_stage_loop results outputs stage maxTotal stage.max_iterations total ts with
    | (true, total1, ts1) => execute_task_aux results outputs maxTotal rest total1 ts1
    | (false, total1, ts1) => ⟨false, total1, ts1, rest.length⟩

/-- `ExecutionPipeline.execute_task` with the default pipeline and the
default `max_total_iterations = 10`. -/
def execute_task (results : Nat → Bool) (outputs : Nat → String)
    (ts : PipeTaskState) : PipeResult :=
  execute_task_aux results outputs 10 DEFAULT_PIPELINE 0 ts

theorem run_stage_loop_total_le (results : Nat → Bool) (outputs : Nat → String)
    (stage : PipelineStage) (maxTotal : Nat) :
    ∀ remaining total ts, total ≤ maxTotal →
      (run_stage_loop results outputs stage maxTotal remaining total ts).2.1 ≤ maxTotal := by
  intro remaining
  induction remaining with
  | zero => intro total ts h; exact h
  | succ n ih =>
    intro total ts h
    rw [run_stage_loop]
    by_cases hlt : total < maxTotal
    · rw [if_pos hlt]
      by_cases hr : results (total + 1) = true
      · simp only [hr, if_true]; exact hlt
      · simp only [hr, Bool.false_eq_true, if_false]
        by_cases hn : n = 0
        · simp only [hn, if_true]; exact hlt
        · simp only [hn, if_false]
          exact ih (total + 1) _ hlt
    · rw [if_neg hlt]; exact h

theorem execute_task_aux_total_le (results : Nat → Bool) (outputs : Nat → String)
    (maxTotal : Nat) :
    ∀ stages total ts, total ≤ maxTotal →
      (execute_task_aux results outputs maxTotal stages total ts).total ≤ maxTotal := by
  intro stages
  induction stages with
  | nil => intro total ts h; exact h
  | cons stage rest ih =>
    intro total ts h
    rw [execute_task_aux]
    have hle := run_stage_loop_total_le results outputs stage maxTotal
      stage.max_iterations total ts h
    rcases hrun : run_stage_loop results outputs stage maxTotal
        stage.max_iterations total ts with ⟨b, total1, ts1⟩
    rw [hrun] at hle
    cases b
    · exact hle
    · exact ih total1 ts1 hle

/-! ### Claim C3 -/

/-- C3: for every sequence of per-invocation agent outcomes, the number of
agent iterations `execute_task` actually executes, summed across all
stages (the final value of its `total_iterations` counter), never exceeds
`max_total_iterations = 10`. -/
theorem c3_total_iterations_bounded (results : Nat → Bool) (outputs : Nat → String)
    (ts : PipeTaskState) :
    (execute_task results outputs ts).total ≤ 10 :=
  execute_task_aux_total_le results outputs 10 DEFAULT_PIPELINE 0 ts (by omega)

/-! ### Claim C4 -/

theorem run_stage_loop_fail (results : Nat → Bool) (outputs : Nat → String)
    (stage : PipelineStage) (maxTotal : Nat) :
    ∀ remaining total ts, 1 ≤ remaining → total ≤ maxTotal →
      ∀ total1 ts1,
        run_stage_loop results outputs stage maxTotal remaining total ts =
          (false, total1, ts1) →
        (ts1.status = TaskStatus.todo ∧ ts1.failure_stage = some stage.name ∧
          ∃ k, ts1.failure_reason = some ((outputs k).take 1000)) ∨
        (ts1.failure_stage = ts.failure_stage ∧
          ts1.failure_reason = ts.failure_reason ∧ total1 = maxTotal) := by
  intro remaining
  induction remaining with
  | zero => intro total ts h1; omega
  | succ n ih =>
    intro total ts _ hle total1 ts1 heq
    rw [run_stage_loop] at heq
    by_cases hlt : total < maxTotal
    · rw [if_pos hlt] at heq
      by_cases hr : results (total + 1) = true
      · simp only [hr, if_true] at heq
        simp at heq
      · simp only [hr, Bool.false_eq_true, if_false] at heq
        by_cases hn : n = 0
        · simp only [hn, if_true] at heq
          cases heq
          exact Or.inl ⟨rfl, rfl, total + 1, rfl⟩
        · simp only [hn, if_false] at heq
          have := ih (total + 1) _ (by omega) hlt total1 ts1 heq
          rcases this with h | ⟨ha, hb, hc⟩
          · exact Or.inl h
          · exact Or.inr ⟨ha, hb, hc⟩
    · rw [if_neg hlt] at heq
      cases heq
      exact Or.inr ⟨rfl, rfl, by omega⟩

theorem run_stage_loop_success (results : Nat → Bool) (outputs : Nat → String)
    (stage : PipelineStage) (maxTotal : Nat) :
    ∀ remaining total ts total1 ts1,
      run_stage_loop results outputs stage maxTotal remaining total ts =
        (true, total1, ts1) →
      ts1.failure_stage = ts.failure_stage ∧ ts1.failure_reason = ts.failure_reason := by
  intro remaining
  induction remaining with
  | zero =>
    intro total ts total1 ts1 heq
    rw [run_stage_loop] at heq
    cases heq
  | succ n ih =>
    intro total ts total1 ts1 heq
    rw [run_stage_loop] at heq
    by_cases hlt : total < maxTotal
    · rw [if_pos hlt] at heq
      by_cases hr : results (total + 1) = true
      · simp only [hr, if_true] at heq
        cases heq
        exact ⟨rfl, rfl⟩
      · simp only [hr, Bool.false_eq_true, if_false] at heq
        by_cases hn : n = 0
        · simp only [hn, if_true] at heq
          cases heq
        · simp only [hn, if_false] at heq
          have h := ih (total + 1)
            { ts with status := stage_status stage.agent_type, iteration := total + 1 }
            total1 ts1 heq
          exact h
    · rw [if_neg hlt] at heq
      cases heq

theorem execute_task_aux_fail (results : Nat → Bool) (outputs : Nat → String)
    (maxTotal : Nat) :
    ∀ stages total ts, (∀ s ∈ stages, 1 ≤ s.max_iterations) → total ≤ maxTotal →
      ts.failure_stage = none → ts.failure_reason = none →
      (execute_task_aux results outputs maxTotal stages total ts).success = false →
      ∃ pre stage rest, stages = pre ++ stage :: rest ∧
        (execute_task_aux results outputs maxTotal stages total ts).skipped =
          rest.length ∧
        (((execute_task_aux results outputs maxTotal stages total ts).ts.status =
            TaskStatus.todo ∧
          (execute_task_aux results outputs maxTotal stages total ts).ts.failure_stage =
            some stage.name ∧
          ∃ k, (execute_task_aux results outputs maxTotal stages total ts).ts.failure_reason =
            some ((outputs k).take 1000)) ∨
         ((execute_task_aux results outputs maxTotal stages total ts).ts.failure_stage =
            none ∧
          (execute_task_aux results outputs maxTotal stages total ts).total = maxTotal)) := by
  intro stages
  induction stages with
  | nil =>
    intro total ts _ _ _ _ hfail
    rw [execute_task_aux] at hfail
    cases hfail
  | cons stage rest ih =>
    intro total ts hmax hle h0 h1 hfail
    have hle1 := run_stage_loop_total_le results outputs stage maxTotal
      stage.max_iterations total ts hle
    rcases hrun : run_stage_loop results outputs stage maxTotal
        stage.max_iterations total ts with ⟨b, total1, ts1⟩
    rw [hrun] at hle1
    cases b
    · -- the stage loop failed: the pipeline stops here
      have hchar := run_stage_loop_fail results outputs stage maxTotal
        stage.max_iterations total ts (hmax stage (by simp)) hle total1 ts1 hrun
      refine ⟨[], stage, rest, rfl, ?_, ?_⟩
      · rw [execute_task_aux, hrun]
      · rw [execute_task_aux, hrun]
        rcases hchar with h | ⟨ha, hb, hc⟩
        · exact Or.inl h
        · exact Or.inr ⟨ha.trans h0, hc⟩
    · -- the stage passed: recurse
      have hpres := run_stage_loop_success results outputs stage maxTotal
        stage.max_iterations total ts total1 ts1 hrun
      have haux : execute_task_aux results outputs maxTotal (stage :: rest) total ts =
          execute_task_aux results outputs maxTotal rest total1 ts1 := by
        rw [execute_task_aux, hrun]
      rw [haux] at hfail ⊢
      obtain ⟨pre, st2, rest2, hsplit, hrest⟩ :=
        ih total1 ts1 (fun s hs => hmax s (by simp [hs])) hle1
          (hpres.1.trans h0) (hpres.2.trans h1) hfail
      exact ⟨stage :: pre, st2, rest2, by rw [hsplit]; rfl, hrest⟩

/-- Oracle for the C4 counterexample: the first three agent invocations
(coder, reviewer, tester, one iteration each) succeed and every later one
fails, so the QA stage exhausts the global budget before its per-stage
budget. -/
def c4results (n : Nat) : Bool := decide (n ≤ 3)

def c4init : PipeTaskState := ⟨TaskStatus.todo, 0, none, none⟩

/-- C4, counterexample: when the global `max_total_iterations` budget runs
out inside the QA stage, `execute_task` returns failure but leaves the
task status at `reviewing` (the QA stage status) and records no
`failure_stage`/`failure_reason` in the metadata — the reset-to-todo path
runs only when a per-stage budget is exhausted. -/
theorem c4_counterexample :
    (execute_task c4results (fun _ => "") c4init).success = false ∧
      (execute_task c4results (fun _ => "") c4init).ts.status = TaskStatus.reviewing ∧
      (execute_task c4results (fun _ => "") c4init).ts.failure_stage = none ∧
      (execute_task c4results (fun _ => "") c4init).ts.failure_reason = none := by
  refine ⟨?_, ?_, ?_, ?_⟩ <;> decide

/-- C4 (amended): whenever `execute_task` returns failure, no stage after
the failing one is executed, and either the per-stage budget was exhausted
— then the task status has been reset to `todo` and the metadata records
the failing stage name under `failure_stage` and a 1000-character-truncated
`failure_reason` — or the global `max_total_iterations` budget (10) was
exhausted first, in which case the status is left at the failing stage's
status and no failure metadata is recorded. -/
theorem c4_budget_failure_amended (results : Nat → Bool) (outputs : Nat → String)
    (ts : PipeTaskState) (h0 : ts.failure_stage = none)
    (h1 : ts.failure_reason = none)
    (hfail : (execute_task results outputs ts).success = false) :
    ∃ pre stage rest, DEFAULT_PIPELINE = pre ++ stage :: rest ∧
      (execute_task results outputs ts).skipped = rest.length ∧
      (((execute_task results outputs ts).ts.status = TaskStatus.todo ∧
        (execute_task results outputs ts).ts.failure_stage = some stage.name ∧
        ∃ k, (execute_task results outputs ts).ts.failure_reason =
          some ((outputs k).take 1000)) ∨
       ((execute_task results outputs ts).ts.failure_stage = none ∧
        (execute_task results outputs ts).total = 10)) :=
  execute_task_aux_fail results outputs 10 DEFAULT_PIPELINE 0 ts
    (by decide) (by omega) h0 h1 hfail

/-- Witness for C4 (amended): with every invocation failing, the coder
stage hard-aborts after its 3 iterations. -/
theorem c4_budget_failure_amended_witness :
    ∃ pre stage rest, DEFAULT_PIPELINE = pre ++ stage :: rest ∧
      (execute_task (fun _ => false) (fun _ => "boom") c4init).skipped = rest.length ∧
      (((execute_task (fun _ => false) (fun _ => "boom") c4init).ts.status =
          TaskStatus.todo ∧
        (execute_task (fun _ => false) (fun _ => "boom") c4init).ts.failure_stage =
          some stage.name ∧
        ∃ k, (execute_task (fun _ => false) (fun _ => "boom") c4init).ts.failure_reason =
          some ((fun _ : Nat => "boom") k |>.take 1000)) ∨
       ((execute_task (fun _ => false) (fun _ => "boom") c4init).ts.failure_stage =
          none ∧
        (execute_task (fun _ => false) (fun _ => "boom") c4init).total = 10)) :=
  c4_budget_failure_amended (fun _ => false) (fun _ => "boom") c4init rfl rfl (by decide)

/-! ## Store mutations and JSONL sync (`core/database.py`, `core/sync.py`) -/

/-- `ChangeType` in `sync.py`. -/
inductive ChangeType
| create
| update
| delete
deriving DecidableEq, Repr

/-- A parsed `ChangeRecord` line of the JSONL changelog; `data` is the
decoded entity snapshot (absent on delete).  The timestamp is not
modelled: replay folds in file order. -/
inductive SyncRecord
| spec (entity_id : String) (change_type : ChangeType) (data : Option Spec)
| task (entity_id : String) (change_type : ChangeType) (data : Option Task)
deriving DecidableEq, Repr

/-- The two entity tables of the SQLite store (rows in rowid order). -/
structure DbState where
  specs : List Spec
  tasks : List Task
deriving DecidableEq, Repr

/-- The field writes of the SQL `UPDATE specs SET title, status,
source_type, updated_at, metadata WHERE id = ?` in `Database.update_spec`:
the row keeps its `id` and `created_at`. -/
def update_spec_row (s r : Spec) : Spec :=
  { r with title := s.title, status := s.status, source_type := s.source_type,
           updated_at := s.updated_at, metadata := s.metadata }

/-- The field writes of the SQL `UPDATE tasks SET … WHERE id = ?` in
`Database.update_task`: the row keeps its `id`, `spec_id` and
`created_at`; the completion-spec side tables are overwritten with the
task's `completion_spec` (upserted when present, deleted when `None`). -/
def update_task_row (t r : Task) : Task :=
  { r with title := t.title, description := t.description, status := t.status,
           priority := t.priority, dependencies := t.dependencies,
           assignee := t.assignee, worktree := t.worktree,
           iteration := t.iteration, updated_at := t.updated_at,
           metadata := t.metadata, completion_spec := t.completion_spec }

/-- `Database.create_spec`: `INSERT INTO specs` — an existing primary key
raises `IntegrityError` and the transaction rolls back. -/
def db_create_spec (st : DbState) (s : Spec) : Except Unit DbState :=
  if st.specs.any (fun r => r.id == s.id) then Except.error ()
  else Except.ok { st with specs := st.specs ++ [s] }

/-- `Database.update_spec` (SQL `UPDATE` of a missing row is a no-op). -/
def db_update_spec (st : DbState) (s : Spec) : DbState :=
  { st with specs := st.specs.map (fun r => if r.id == s.id then update_spec_row s r else r) }

/-- `Database.delete_spec`; `ON DELETE CASCADE` removes the spec's tasks. -/
def db_delete_spec (st : DbState) (id : String) : DbState :=
  { st with specs := st.specs.filter (fun r => !(r.id == id)),
            tasks := st.tasks.filter (fun t => !(t.spec_id == id)) }

/-- `Database.create_task` (here as one effect; C7 models its two-transaction
split).  Duplicate primary key raises. -/
def db_create_task (st : DbState) (t : Task) : Except Unit DbState :=
  if st.tasks.any (fun r => r.id == t.id) then Except.error ()
  else Except.ok { st with tasks := st.tasks ++ [t] }

/-- `Database.update_task`. -/
def db_update_task (st : DbState) (t : Task) : DbState :=
  { st with tasks := st.tasks.map (fun r => if r.id == t.id then update_task_row t r else r) }

/-- `Database.delete_task`. -/
def db_delete_task (st : DbState) (id : String) : DbState :=
  { st with tasks := st.tasks.filter (fun r => !(r.id == id)) }

/-- The Spec/Task mutations `SyncedDatabase` overrides. -/
inductive StoreMutation
| create_spec (s : Spec)
| update_spec (s : Spec)
| delete_spec (id : String)
| create_task (t : Task)
| update_task (t : Task)
| delete_task (id : String)
deriving DecidableEq, Repr

/-- The plain-`Database` effect of a mutation (the transaction commits on
`ok`; on `error` it has rolled back and the exception propagates). -/
def db_apply : StoreMutation → DbState → Except Unit DbState
  | StoreMutation.create_spec s, st => db_create_spec st s
  | StoreMutation.update_spec s, st => Except.ok (db_update_spec st s)
  | StoreMutation.delete_spec i, st => Except.ok (db_delete_spec st i)
  | StoreMutation.create_task t, st => db_create_task st t
  | StoreMutation.update_task t, st => Except.ok (db_update_task st t)
  | StoreMutation.delete_task i, st => Except.ok (db_delete_task st i)

/-- The `ChangeRecord` each `SyncedDatabase` override passes to
`JsonlSync.record_change`. -/
def record_of : StoreMutation → SyncRecord
  | StoreMutation.create_spec s => SyncRecord.spec s.id ChangeType.create (some s)
  | StoreMutation.update_spec s => SyncRecord.spec s.id ChangeType.update (some s)
  | StoreMutation.delete_spec i => SyncRecord.spec i ChangeType.delete none
  | StoreMutation.create_task t => SyncRecord.task t.id ChangeType.create (some t)
  | StoreMutation.update_task t => SyncRecord.task t.id ChangeType.update (some t)
  | StoreMutation.delete_task i => SyncRecord.task i ChangeType.delete none

/-- Database plus changelog file, as held by `SyncedDatabase`. -/
structure SyncedState where
  db : DbState
  log : List SyncRecord
deriving DecidableEq, Repr

/-- One mutation through `SyncedDatabase`: `super()` runs (and commits) the
database transaction first, then `record_change` appends one line to the
JSONL file.  `append_ok` models whether that file append succeeds; when it
fails the exception propagates to the caller, but the already-committed
database change stays.  Returns (success reported to caller, state). -/
def synced_mutate (append_ok : Bool) (m : StoreMutation) (st : SyncedState) :
    Bool × SyncedState :=
  match db_apply m st.db with
  | Except.error _ => (false, st)
  | Except.ok db1 =>
    if append_ok then (true, ⟨db1, st.log ++ [record_of m]⟩)
    else (false, ⟨db1, st.log⟩)

/-! ### Claim C5 -/

/-- Concrete spec for the C5 counterexample. -/
def c5spec : Spec :=
  { id := "s1", title := "T1", status := "draft", source_type := none,
    created_at := 0, updated_at := 0, metadata := [] }

def c5st0 : SyncedState := ⟨⟨[], []⟩, []⟩

/-- C5, counterexample: when the changelog append fails, `create_spec` via
the sync-enabled store reports failure, yet the database keeps the new
spec — the transaction committed before the append ran, so nothing is
rolled back. -/
theorem c5_counterexample :
    (synced_mutate false (StoreMutation.create_spec c5spec) c5st0).1 = false ∧
      (synced_mutate false (StoreMutation.create_spec c5spec) c5st0).2.db ≠ c5st0.db ∧
      (synced_mutate false (StoreMutation.create_spec c5spec) c5st0).2.log = c5st0.log := by
  refine ⟨rfl, ?_, rfl⟩
  decide

/-- C5 (amended): each Spec/Task mutation through the sync-enabled store
appends exactly one ChangeRecord and only then reports success; the store
transaction commits *before* the append, so when the database operation
itself fails the state is unchanged, but when the changelog append fails
the already-committed database change persists (only the failure
propagates) — the append failure does not roll the transaction back. -/
theorem c5_store_then_append_amended (append_ok : Bool) (m : StoreMutation)
    (st : SyncedState) :
    ((synced_mutate append_ok m st).1 = true →
      ∃ db1, db_apply m st.db = Except.ok db1 ∧
        (synced_mutate append_ok m st).2 = ⟨db1, st.log ++ [record_of m]⟩) ∧
    (∀ e, db_apply m st.db = Except.error e →
      synced_mutate append_ok m st = (false, st)) ∧
    (append_ok = false → ∀ db1, db_apply m st.db = Except.ok db1 →
      synced_mutate append_ok m st = (false, ⟨db1, st.log⟩)) := by
  unfold synced_mutate
  rcases hdb : db_apply m st.db with e | db1
  · refine ⟨?_, ?_, ?_⟩
    · intro h; exact absurd h (by simp)
    · intro e2 _; rfl
    · intro _ db2 h
      exact Except.noConfusion h
  · refine ⟨?_, ?_, ?_⟩
    · intro h
      cases append_ok
      · exact absurd h (by simp)
      · exact ⟨db1, rfl, rfl⟩
    · intro e2 h
      exact Except.noConfusion h
    · intro ha db2 h
      injection h with h2
      subst h2
      subst ha
      simp

/-- Witness for C5 (amended): successful append of a spec creation on the
empty store. -/
theorem c5_store_then_append_amended_witness :
    ((synced_mutate true (StoreMutation.create_spec c5spec) c5st0).1 = true →
      ∃ db1, db_apply (StoreMutation.create_spec c5spec) c5st0.db = Except.ok db1 ∧
        (synced_mutate true (StoreMutation.create_spec c5spec) c5st0).2 =
          ⟨db1, c5st0.log ++ [record_of (StoreMutation.create_spec c5spec)]⟩) ∧
    (∀ e, db_apply (StoreMutation.create_spec c5spec) c5st0.db = Except.error e →
      synced_mutate true (StoreMutation.create_spec c5spec) c5st0 = (false, c5st0)) ∧
    (true = false → ∀ db1,
      db_apply (StoreMutation.create_spec c5spec) c5st0.db = Except.ok db1 →
      synced_mutate true (StoreMutation.create_spec c5spec) c5st0 =
        (false, ⟨db1, c5st0.log⟩)) :=
  c5_store_then_append_amended true (StoreMutation.create_spec c5spec) c5st0

/-! ### Claim C6 — `JsonlSync.import_changes` replay -/

/-- Python `dict` assignment `m[k] = v`: replace in place when the key is
present (keeping its position), else append. -/
def upsert {β : Type} (m : List (String × β)) (k : String) (v : β) :
    List (String × β) :=
  if m.any (fun e => e.1 == k) then
    m.map (fun e => if e.1 == k then (k, v) else e)
  else m ++ [(k, v)]

/-- Python `m.pop(k, None)`. -/
def erase_key {β : Type} (m : List (String × β)) (k : String) :
    List (String × β) :=
  m.filter (fun e => !(e.1 == k))

/-- The read-and-fold loop of `import_changes`: build the final
`(entity_type, entity_id) → snapshot` maps in file order.  `delete` removes
the key; `create`/`update` with data overwrite it; records without data are
skipped. -/
def fold_records :
    List SyncRecord → List (String × Spec) × List (String × Task) →
      List (String × Spec) × List (String × Task)
  | [], acc => acc
  | SyncRecord.spec k ct d :: rest, (sp, tk) =>
    fold_records rest
      (match ct, d with
       | ChangeType.delete, _ => (erase_key sp k, tk)
       | _, some data => (upsert sp k data, tk)
       | _, none => (sp, tk))
  | SyncRecord.task k ct d :: rest, (sp, tk) =>
    fold_records rest
      (match ct, d with
       | ChangeType.delete, _ => (sp, erase_key tk k)
       | _, some data => (sp, upsert tk k data)
       | _, none => (sp, tk))

/-- `INSERT` of a row whose key column is `eid`: duplicate primary key
raises (the body of `Database.create_spec` / `create_task` on one table). -/
def tbl_create {α : Type} (eid : α → String) (tbl : List α) (d : α) :
    Except Unit (List α) :=
  if tbl.any (fun r => eid r == eid d) then Except.error ()
  else Except.ok (tbl ++ [d])

/-- SQL `UPDATE … WHERE eid = ?` writing the fields `upd` writes (the body
of `Database.update_spec` / `update_task` on one table). -/
def tbl_update {α : Type} (eid : α → String) (upd : α → α → α)
    (tbl : List α) (d : α) : List α :=
  tbl.map (fun r => if eid r == eid d then upd d r else r)

/-- One folded snapshot applied by `import_changes`: look the dict key up
(`get_spec`/`get_task`), then `create` when absent else `update`. -/
def tbl_apply_entry {α : Type} (eid : α → String) (upd : α → α → α)
    (tbl : List α) (e : String × α) : Except Unit (List α) :=
  match tbl.find? (fun r => eid r == e.1) with
  | none => tbl_create eid tbl e.2
  | some _ => Except.ok (tbl_update eid upd tbl e.2)

/-- The per-table sync loop of `import_changes` (an exception aborts the
remaining iterations and propagates). -/
def tbl_apply_entries {α : Type} (eid : α → String) (upd : α → α → α) :
    List (String × α) → List α → Except Unit (List α)
  | [], tbl => Except.ok tbl
  | e :: rest, tbl =>
    match tbl_apply_entry eid upd tbl e with
    | Except.error u => Except.error u
    | Except.ok tbl1 => tbl_apply_entries eid upd rest tbl1

/-- `JsonlSync.import_changes`: fold the file, then sync specs to the
database, then tasks.  (Foreign-key enforcement of `task.spec_id` is not
modelled; a replay that would violate it raises in the source before
changing the tasks table, which is outside the successful-first-replay
hypothesis the idempotency theorem takes.) -/
def import_changes (file : List SyncRecord) (st : DbState) :
    Except Unit DbState :=
  match tbl_apply_entries Spec.id update_spec_row (fold_records file ([], [])).1
      st.specs with
  | Except.error u => Except.error u
  | Except.ok sp1 =>
    match tbl_apply_entries Task.id update_task_row (fold_records file ([], [])).2
        st.tasks with
    | Except.error u => Except.error u
    | Except.ok tk1 => Except.ok ⟨sp1, tk1⟩

/-- A changelog record is well formed when its snapshot carries the
record's own `entity_id` as the entity id — true of every record the
system itself writes (`record_change` is always called with
`entity_id = entity.id`, see `record_of`). -/
def record_wf : SyncRecord → Bool
  | SyncRecord.spec k _ (some d) => d.id == k
  | SyncRecord.task k _ (some d) => d.id == k
  | _ => true

/-- All records of a changelog file are well formed. -/
def WFfile (file : List SyncRecord) : Prop := ∀ r ∈ file, record_wf r = true

/-- Total version of `tbl_apply_entry` for the well-formed case. -/
def tbl_apply_entry_fn {α : Type} (eid : α → String) (upd : α → α → α)
    (tbl : List α) (e : String × α) : List α :=
  match tbl.find? (fun r => eid r == e.1) with
  | none => tbl ++ [e.2]
  | some _ => tbl_update eid upd tbl e.2

/-- Total version of `tbl_apply_entries` for the well-formed case. -/
def tbl_apply_entries_fn {α : Type} (eid : α → String) (upd : α → α → α) :
    List (String × α) → List α → List α
  | [], tbl => tbl
  | e :: rest, tbl =>
    tbl_apply_entries_fn eid upd rest (tbl_apply_entry_fn eid upd tbl e)

theorem tbl_apply_entry_eq_fn {α : Type} (eid : α → String) (upd : α → α → α)
    (tbl : List α) (e : String × α) (he : eid e.2 = e.1) :
    tbl_apply_entry eid upd tbl e =
      Except.ok (tbl_apply_entry_fn eid upd tbl e) := by
  unfold tbl_apply_entry tbl_apply_entry_fn
  rcases hf : tbl.find? (fun r => eid r == e.1) with _ | r0
  · rw [List.find?_eq_none] at hf
    unfold tbl_create
    rw [if_neg]
    intro hany
    obtain ⟨r, hr, hbeq⟩ := List.any_eq_true.mp hany
    rw [he] at hbeq
    exact hf r hr hbeq
  · rfl

theorem tbl_apply_entries_eq_fn {α : Type} (eid : α → String) (upd : α → α → α) :
    ∀ (es : List (String × α)) (tbl : List α), (∀ e ∈ es, eid e.2 = e.1) →
      tbl_apply_entries eid upd es tbl =
        Except.ok (tbl_apply_entries_fn eid upd es tbl) := by
  intro es
  induction es with
  | nil => intro tbl _; rfl
  | cons e rest ih =>
    intro tbl hwf
    rw [tbl_apply_entries, tbl_apply_entries_fn,
      tbl_apply_entry_eq_fn eid upd tbl e (hwf e (by simp))]
    exact ih _ (fun x hx => hwf x (by simp [hx]))

/-- After replay, every folded snapshot has a matching row and re-applying
its update leaves each matching row unchanged. -/
def TblFixed {α : Type} (eid : α → String) (upd : α → α → α)
    (es : List (String × α)) (tbl : List α) : Prop :=
  ∀ e ∈ es, (∃ r ∈ tbl, eid r = e.1) ∧ ∀ r ∈ tbl, eid r = e.1 → upd e.2 r = r

theorem tbl_apply_entry_fn_self {α : Type} (eid : α → String) (upd : α → α → α)
    (hid : ∀ d r, eid (upd d r) = eid r)
    (hidem : ∀ d r, upd d (upd d r) = upd d r)
    (hself : ∀ d, upd d d = d)
    (tbl : List α) (e : String × α) (he : eid e.2 = e.1) :
    (∃ r ∈ tbl_apply_entry_fn eid upd tbl e, eid r = e.1) ∧
      ∀ r ∈ tbl_apply_entry_fn eid upd tbl e, eid r = e.1 → upd e.2 r = r := by
  unfold tbl_apply_entry_fn
  rcases hf : tbl.find? (fun r => eid r == e.1) with _ | r0
  · rw [List.find?_eq_none] at hf
    constructor
    · exact ⟨e.2, by simp, he⟩
    · intro r hr hrid
      rcases List.mem_append.mp hr with hmem | hmem
      · exact absurd (beq_iff_eq.mpr hrid) (hf r hmem)
      · rw [List.mem_singleton.mp hmem]
        exact hself e.2
  · have hr0 : r0 ∈ tbl := List.mem_of_find?_eq_some hf
    have hp := List.find?_some hf
    have hr0id : eid r0 = e.1 := beq_iff_eq.mp (by simpa using hp)
    unfold tbl_update
    constructor
    · refine ⟨upd e.2 r0, List.mem_map.mpr ⟨r0, hr0, ?_⟩, by rw [hid, hr0id]⟩
      rw [if_pos (by rw [he]; exact beq_iff_eq.mpr hr0id)]
    · intro r hr hrid
      obtain ⟨r1, hr1, hr1eq⟩ := List.mem_map.mp hr
      by_cases hc : (eid r1 == eid e.2) = true
      · rw [if_pos hc] at hr1eq
        rw [← hr1eq]
        exact hidem e.2 r1
      · rw [if_neg hc] at hr1eq
        subst hr1eq
        rw [he] at hc
        exact absurd (beq_iff_eq.mpr hrid) hc

theorem tbl_apply_entry_fn_pres {α : Type} (eid : α → String) (upd : α → α → α)
    (hid : ∀ d r, eid (upd d r) = eid r)
    (tbl : List α) (e : String × α) (he : eid e.2 = e.1)
    (k : String) (d : α) (hk : e.1 ≠ k)
    (hex : ∃ r ∈ tbl, eid r = k) (hfix : ∀ r ∈ tbl, eid r = k → upd d r = r) :
    (∃ r ∈ tbl_apply_entry_fn eid upd tbl e, eid r = k) ∧
      ∀ r ∈ tbl_apply_entry_fn eid upd tbl e, eid r = k → upd d r = r := by
  unfold tbl_apply_entry_fn
  rcases hf : tbl.find? (fun r => eid r == e.1) with _ | r0
  · constructor
    · obtain ⟨r, hr, hrid⟩ := hex
      exact ⟨r, by simp [hr], hrid⟩
    · intro r hr hrid
      rcases List.mem_append.mp hr with hmem | hmem
      · exact hfix r hmem hrid
      · rw [List.mem_singleton.mp hmem] at hrid
        rw [he] at hrid
        exact absurd hrid hk
  · unfold tbl_update
    constructor
    · obtain ⟨r, hr, hrid⟩ := hex
      refine ⟨r, List.mem_map.mpr ⟨r, hr, ?_⟩, hrid⟩
      rw [if_neg]
      rw [he]
      intro hc
      have h3 : eid r = e.1 := beq_iff_eq.mp hc
      exact hk (by rw [← h3, hrid])
    · intro r hr hrid
      obtain ⟨r1, hr1, hr1eq⟩ := List.mem_map.mp hr
      by_cases hc : (eid r1 == eid e.2) = true
      · rw [if_pos hc] at hr1eq
        rw [← hr1eq] at hrid
        rw [hid] at hrid
        rw [he] at hc
        have h3 : eid r1 = e.1 := beq_iff_eq.mp hc
        exact absurd (by rw [← h3, hrid]) hk
      · rw [if_neg hc] at hr1eq
        subst hr1eq
        exact hfix r1 hr1 hrid

theorem tbl_apply_entries_fn_pres {α : Type} (eid : α → String) (upd : α → α → α)
    (hid : ∀ d r, eid (upd d r) = eid r) :
    ∀ (es : List (String × α)) (tbl : List α), (∀ e ∈ es, eid e.2 = e.1) →
      ∀ (k : String) (d : α), (∀ e ∈ es, e.1 ≠ k) →
        (∃ r ∈ tbl, eid r = k) → (∀ r ∈ tbl, eid r = k → upd d r = r) →
        (∃ r ∈ tbl_apply_entries_fn eid upd es tbl, eid r = k) ∧
          ∀ r ∈ tbl_apply_entries_fn eid upd es tbl, eid r = k → upd d r = r := by
  intro es
  induction es with
  | nil => intro tbl _ k d _ hex hfix; exact ⟨hex, hfix⟩
  | cons e rest ih =>
    intro tbl hwf k d hks hex hfix
    rw [tbl_apply_entries_fn]
    have h1 := tbl_apply_entry_fn_pres eid upd hid tbl e (hwf e (by simp)) k d
      (hks e (by simp)) hex hfix
    exact ih _ (fun x hx => hwf x (by simp [hx])) k d
      (fun x hx => hks x (by simp [hx])) h1.1 h1.2

theorem tbl_apply_entries_fn_fixed {α : Type} (eid : α → String) (upd : α → α → α)
    (hid : ∀ d r, eid (upd d r) = eid r)
    (hidem : ∀ d r, upd d (upd d r) = upd d r)
    (hself : ∀ d, upd d d = d) :
    ∀ (es : List (String × α)) (tbl : List α), (∀ e ∈ es, eid e.2 = e.1) →
      (es.map Prod.fst).Nodup →
      TblFixed eid upd es (tbl_apply_entries_fn eid upd es tbl) := by
  intro es
  induction es with
  | nil => intro tbl _ _ e he; cases he
  | cons e rest ih =>
    intro tbl hwf hnd e2 he2
    rw [List.map_cons, List.nodup_cons] at hnd
    rcases List.mem_cons.mp he2 with rfl | hmem
    · -- the head entry: established by its own application, preserved by the rest
      rw [tbl_apply_entries_fn]
      have h1 := tbl_apply_entry_fn_self eid upd hid hidem hself tbl e2
        (hwf e2 (by simp))
      exact tbl_apply_entries_fn_pres eid upd hid rest _
        (fun x hx => hwf x (by simp [hx])) e2.1 e2.2
        (fun x hx hxk => hnd.1 (hxk ▸ List.mem_map.mpr ⟨x, hx, rfl⟩))
        h1.1 h1.2
    · -- a tail entry: the inductive hypothesis applies
      rw [tbl_apply_entries_fn]
      exact ih _ (fun x hx => hwf x (by simp [hx])) hnd.2 e2 hmem

theorem tbl_apply_entries_fn_noop {α : Type} (eid : α → String) (upd : α → α → α) :
    ∀ (es : List (String × α)) (tbl : List α), (∀ e ∈ es, eid e.2 = e.1) →
      TblFixed eid upd es tbl → tbl_apply_entries_fn eid upd es tbl = tbl := by
  intro es
  induction es with
  | nil => intro tbl _ _; rfl
  | cons e rest ih =>
    intro tbl hwf hfix
    obtain ⟨⟨r0, hr0, hr0id⟩, hall⟩ := hfix e (by simp)
    have hsome : (tbl.find? (fun r => eid r == e.1)).isSome := by
      rw [List.find?_isSome]
      exact ⟨r0, hr0, beq_iff_eq.mpr hr0id⟩
    have hentry : tbl_apply_entry_fn eid upd tbl e = tbl := by
      unfold tbl_apply_entry_fn
      rcases hf : tbl.find? (fun r => eid r == e.1) with _ | r1
      · rw [hf] at hsome; cases hsome
      · unfold tbl_update
        rw [List.map_congr_left, List.map_id]
        intro r hr
        by_cases hc : (eid r == eid e.2) = true
        · rw [if_pos hc]
          rw [hwf e (by simp)] at hc
          exact hall r hr (beq_iff_eq.mp hc)
        · rw [if_neg hc]
          rfl
    rw [tbl_apply_entries_fn, hentry]
    exact ih tbl (fun x hx => hwf x (by simp [hx]))
      (fun x hx => hfix x (by simp [hx]))

/-- Replaying the same folded snapshots a second time is a no-op. -/
theorem tbl_replay_idem {α : Type} (eid : α → String) (upd : α → α → α)
    (hid : ∀ d r, eid (upd d r) = eid r)
    (hidem : ∀ d r, upd d (upd d r) = upd d r)
    (hself : ∀ d, upd d d = d)
    (es : List (String × α)) (tbl : List α)
    (hwf : ∀ e ∈ es, eid e.2 = e.1) (hnd : (es.map Prod.fst).Nodup) :
    tbl_apply_entries_fn eid upd es (tbl_apply_entries_fn eid upd es tbl) =
      tbl_apply_entries_fn eid upd es tbl :=
  tbl_apply_entries_fn_noop eid upd es _ hwf
    (tbl_apply_entries_fn_fixed eid upd hid hidem hself es tbl hwf hnd)

/-- Well-formedness of a folded snapshot map: each value carries its key as
entity id, and keys are distinct (it is a Python dict). -/
def EntsWF {β : Type} (eidf : β → String) (m : List (String × β)) : Prop :=
  (∀ e ∈ m, eidf e.2 = e.1) ∧ (m.map Prod.fst).Nodup

theorem upsert_keys {β : Type} (m : List (String × β)) (k : String) (v : β) :
    (upsert m k v).map Prod.fst =
      if m.any (fun e => e.1 == k) then m.map Prod.fst
      else m.map Prod.fst ++ [k] := by
  unfold upsert
  by_cases h : m.any (fun e => e.1 == k) = true
  · rw [if_pos h, if_pos h, List.map_map]
    refine List.map_congr_left ?_
    intro e _
    by_cases hc : (e.1 == k) = true
    · simp only [Function.comp_apply, if_pos hc]
      exact (beq_iff_eq.mp hc).symm
    · simp only [Function.comp_apply, if_neg hc]
  · rw [if_neg h, if_neg h, List.map_append]
    rfl

theorem upsert_wf {β : Type} (eidf : β → String) (m : List (String × β))
    (k : String) (v : β) (hm : EntsWF eidf m) (hv : eidf v = k) :
    EntsWF eidf (upsert m k v) := by
  obtain ⟨hids, hnd⟩ := hm
  constructor
  · unfold upsert
    by_cases h : m.any (fun e => e.1 == k) = true
    · rw [if_pos h]
      intro e he
      obtain ⟨e1, he1, he1eq⟩ := List.mem_map.mp he
      by_cases hc : (e1.1 == k) = true
      · rw [if_pos hc] at he1eq
        rw [← he1eq]
        exact hv
      · rw [if_neg hc] at he1eq
        rw [← he1eq]
        exact hids e1 he1
    · rw [if_neg h]
      intro e he
      rcases List.mem_append.mp he with hmem | hmem
      · exact hids e hmem
      · rw [List.mem_singleton.mp hmem]
        exact hv
  · rw [upsert_keys]
    by_cases h : m.any (fun e => e.1 == k) = true
    · rw [if_pos h]; exact hnd
    · rw [if_neg h]
      rw [List.nodup_append]
      refine ⟨hnd, List.nodup_singleton k, ?_⟩
      intro x hx hxk
      rw [List.mem_singleton.mp hxk] at hx
      obtain ⟨e, he, heeq⟩ := List.mem_map.mp hx
      rw [List.any_eq_true] at h
      push_neg at h
      exact absurd (beq_iff_eq.mpr heeq) (by simpa using h e he)

theorem erase_wf {β : Type} (eidf : β → String) (m : List (String × β))
    (k : String) (hm : EntsWF eidf m) : EntsWF eidf (erase_key m k) := by
  obtain ⟨hids, hnd⟩ := hm
  constructor
  · intro e he
    exact hids e (List.mem_of_mem_filter he)
  · exact List.Nodup.sublist (List.Sublist.map Prod.fst (List.filter_sublist m)) hnd

theorem fold_records_wf :
    ∀ (file : List SyncRecord) (acc : List (String × Spec) × List (String × Task)),
      WFfile file → EntsWF Spec.id acc.1 → EntsWF Task.id acc.2 →
      EntsWF Spec.id (fold_records file acc).1 ∧
        EntsWF Task.id (fold_records file acc).2 := by
  intro file
  induction file with
  | nil => intro acc _ h1 h2; exact ⟨h1, h2⟩
  | cons r rest ih =>
    intro acc hwf h1 h2
    have hwfr := hwf r (by simp)
    have hwfrest : WFfile rest := fun x hx => hwf x (by simp [hx])
    rcases acc with ⟨sp, tk⟩
    rcases r with ⟨k, ct, d⟩ | ⟨k, ct, d⟩
    · rcases ct with _ | _ | _ <;> rcases d with _ | data <;>
        simp only [fold_records] <;>
        apply ih _ hwfrest
      all_goals first
        | exact h1
        | exact h2
        | exact upsert_wf Spec.id sp k data h1 (beq_iff_eq.mp (by simpa [record_wf] using hwfr))
        | exact erase_wf Spec.id sp k h1
    · rcases ct with _ | _ | _ <;> rcases d with _ | data <;>
        simp only [fold_records] <;>
        apply ih _ hwfrest
      all_goals first
        | exact h1
        | exact h2
        | exact upsert_wf Task.id tk k data h2 (beq_iff_eq.mp (by simpa [record_wf] using hwfr))
        | exact erase_wf Task.id tk k h2

/-- On a well-formed changelog file, `import_changes` succeeds and computes
the fold-then-sync of both tables. -/
theorem import_changes_ok (file : List SyncRecord) (st : DbState)
    (hwf : WFfile file) :
    import_changes file st = Except.ok
      ⟨tbl_apply_entries_fn Spec.id update_spec_row
          (fold_records file ([], [])).1 st.specs,
        tbl_apply_entries_fn Task.id update_task_row
          (fold_records file ([], [])).2 st.tasks⟩ := by
  have hfold := fold_records_wf file ([], []) hwf
    ⟨fun e he => absurd he (List.not_mem_nil e), List.nodup_nil⟩
    ⟨fun e he => absurd he (List.not_mem_nil e), List.nodup_nil⟩
  unfold import_changes
  rw [tbl_apply_entries_eq_fn Spec.id update_spec_row _ _ hfold.1.1,
      tbl_apply_entries_eq_fn Task.id update_task_row _ _ hfold.2.1]

/-- C6: `import_changes` is idempotent — replaying the same changelog file
a second time from the state the first (successful) replay produced leaves
the store in exactly that state. -/
theorem c6_import_changes_idempotent (file : List SyncRecord) (st st1 : DbState)
    (hwf : WFfile file) (h1 : import_changes file st = Except.ok st1) :
    import_changes file st1 = Except.ok st1 := by
  have hfold := fold_records_wf file ([], []) hwf
    ⟨fun e he => absurd he (List.not_mem_nil e), List.nodup_nil⟩
    ⟨fun e he => absurd he (List.not_mem_nil e), List.nodup_nil⟩
  rw [import_changes_ok file st hwf] at h1
  injection h1 with hst
  rw [import_changes_ok file st1 hwf, ← hst]
  dsimp only
  rw [tbl_replay_idem Spec.id update_spec_row (fun d r => rfl) (fun d r => rfl)
        (fun d => rfl) _ st.specs hfold.1.1 hfold.1.2,
      tbl_replay_idem Task.id update_task_row (fun d r => rfl) (fun d r => rfl)
        (fun d => rfl) _ st.tasks hfold.2.1 hfold.2.2]

/-- Concrete changelog file for the C6 witness: create spec `s1`, create
task `t1`, retitle `s1`, delete `t1`. -/
def c6spec : Spec :=
  { id := "s1", title := "T1", status := "draft", source_type := none,
    created_at := 0, updated_at := 0, metadata := [] }

def c6task : Task :=
  { id := "t1", spec_id := "s1", title := "T", description := "",
    status := TaskStatus.todo, priority := 2, dependencies := [],
    assignee := none, worktree := none, iteration := 0,
    created_at := 0, updated_at := 0, metadata := [], completion_spec := none }

def c6file : List SyncRecord :=
  [SyncRecord.spec "s1" ChangeType.create (some c6spec),
   SyncRecord.task "t1" ChangeType.create (some c6task),
   SyncRecord.spec "s1" ChangeType.update (some { c6spec with title := "T2" }),
   SyncRecord.task "t1" ChangeType.delete none]

def c6st1 : DbState := ⟨[{ c6spec with title := "T2" }], []⟩

/-- Witness for C6: replaying `c6file` into the empty store yields
`c6st1`, and replaying it again from `c6st1` is a no-op. -/
theorem c6_import_changes_idempotent_witness :
    import_changes c6file c6st1 = Except.ok c6st1 :=
  c6_import_changes_idempotent c6file ⟨[], []⟩ c6st1
    (show ∀ r ∈ c6file, record_wf r = true by decide) rfl

/-! ### Claim C7 — `Database.create_task` and its completion spec -/

/-- The tables `create_task` touches: the `tasks` table and the normalized
completion-spec side tables (`task_completion_specs` +
`task_agent_criteria`), the latter keyed by `task_id` and modelled as one
map to the whole `TaskCompletionSpec`. -/
structure CtState where
  tasks : List Task
  completion_specs : List (String × TaskCompletionSpec)
deriving DecidableEq, Repr

inductive CtResult
| ok
| duplicate_id
| completion_write_failed
deriving DecidableEq, Repr

/-- `Database.create_task`: the `INSERT INTO tasks` runs in one transaction
(duplicate primary key raises and rolls back); then — outside that
transaction, as its own transaction via `save_completion_spec` — the
completion spec is upserted when present.  `tx2_ok` models whether that
second transaction commits; when it fails, its rollback cannot undo the
already-committed task insert. -/
def create_task_run (tx2_ok : Bool) (t : Task) (st : CtState) :
    CtResult × CtState :=
  if st.tasks.any (fun r => r.id == t.id) then (CtResult.duplicate_id, st)
  else
    let st1 : CtState :=
      { st with tasks := st.tasks ++ [{ t with completion_spec := none }] }
    match t.completion_spec with
    | none => (CtResult.ok, st1)
    | some cs =>
      if tx2_ok then
        (CtResult.ok,
          { st1 with completion_specs := upsert st1.completion_specs t.id cs })
      else (CtResult.completion_write_failed, st1)

def c7cs : TaskCompletionSpec :=
  { outcome := "works", acceptance_criteria := ["a"],
    coder := none, reviewer := none, tester := none, qa := none }

def c7task : Task :=
  { id := "t7", spec_id := "s1", title := "T", description := "",
    status := TaskStatus.todo, priority := 2, dependencies := [],
    assignee := none, worktree := none, iteration := 0,
    created_at := 0, updated_at := 0, metadata := [],
    completion_spec := some c7cs }

/-- C7, counterexample: when the completion-spec transaction fails after
the task insert committed, `create_task` raises, yet the task row stays in
the store with no completion spec — the pair is not stored atomically. -/
theorem c7_counterexample :
    (create_task_run false c7task ⟨[], []⟩).1 = CtResult.completion_write_failed ∧
      (create_task_run false c7task ⟨[], []⟩).2.tasks =
        [{ c7task with completion_spec := none }] ∧
      (create_task_run false c7task ⟨[], []⟩).2.completion_specs = [] := by
  refine ⟨rfl, by decide, rfl⟩

/-- C7 (amended): `create_task` fails with a duplicate-id error leaving the
store unchanged when the task id exists; otherwise it commits the task row
and then, in a second, separate transaction, upserts the completion spec
when one is present — so if that second transaction fails, the task stays
durably stored without its completion spec (the write is not atomic across
the pair). -/
theorem c7_create_task_amended (tx2_ok : Bool) (t : Task) (st : CtState) :
    (st.tasks.any (fun r => r.id == t.id) = true →
      create_task_run tx2_ok t st = (CtResult.duplicate_id, st)) ∧
    (st.tasks.any (fun r => r.id == t.id) = false →
      ((t.completion_spec = none →
          create_task_run tx2_ok t st =
            (CtResult.ok,
              { st with tasks := st.tasks ++ [{ t with completion_spec := none }] })) ∧
       (∀ cs, t.completion_spec = some cs → tx2_ok = true →
          create_task_run tx2_ok t st =
            (CtResult.ok,
              ⟨st.tasks ++ [{ t with completion_spec := none }],
                upsert st.completion_specs t.id cs⟩)) ∧
       (∀ cs, t.completion_spec = some cs → tx2_ok = false →
          create_task_run tx2_ok t st =
            (CtResult.completion_write_failed,
              ⟨st.tasks ++ [{ t with completion_spec := none }],
                st.completion_specs⟩)))) := by
  unfold create_task_run
  by_cases hdup : st.tasks.any (fun r => r.id == t.id) = true
  · rw [if_pos hdup]
    refine ⟨fun _ => rfl, fun hfalse => ?_⟩
    rw [hdup] at hfalse
    cases hfalse
  · rw [if_neg hdup]
    refine ⟨fun htrue => absurd htrue hdup, fun _ => ⟨?_, ?_, ?_⟩⟩
    · intro hnone
      rw [hnone]
    · intro cs hsome htx
      rw [hsome, htx]
      rfl
    · intro cs hsome htx
      rw [hsome, htx]
      rfl

/-- Witness for C7 (amended): duplicate-id creation on a store already
holding the task leaves the store unchanged. -/
theorem c7_create_task_amended_witness :
    ((⟨[{ c7task with completion_spec := none }], []⟩ : CtState).tasks.any
        (fun r => r.id == c7task.id) = true →
      create_task_run true c7task ⟨[{ c7task with completion_spec := none }], []⟩ =
        (CtResult.duplicate_id, ⟨[{ c7task with completion_spec := none }], []⟩)) ∧
    ((⟨[{ c7task with completion_spec := none }], []⟩ : CtState).tasks.any
        (fun r => r.id == c7task.id) = false →
      ((c7task.completion_spec = none →
          create_task_run true c7task ⟨[{ c7task with completion_spec := none }], []⟩ =
            (CtResult.ok,
              { (⟨[{ c7task with completion_spec := none }], []⟩ : CtState) with
                  tasks := (⟨[{ c7task with completion_spec := none }], []⟩ : CtState).tasks
                    ++ [{ c7task with completion_spec := none }] })) ∧
       (∀ cs, c7task.completion_spec = some cs → true = true →
          create_task_run true c7task ⟨[{ c7task with completion_spec := none }], []⟩ =
            (CtResult.ok,
              ⟨(⟨[{ c7task with completion_spec := none }], []⟩ : CtState).tasks
                  ++ [{ c7task with completion_spec := none }],
                upsert (⟨[{ c7task with completion_spec := none }], []⟩ : CtState).completion_specs
                  c7task.id cs⟩)) ∧
       (∀ cs, c7task.completion_spec = some cs → true = false →
          create_task_run true c7task ⟨[{ c7task with completion_spec := none }], []⟩ =
            (CtResult.completion_write_failed,
              ⟨(⟨[{ c7task with completion_spec := none }], []⟩ : CtState).tasks
                  ++ [{ c7task with completion_spec := none }],
                (⟨[{ c7task with completion_spec := none }], []⟩ : CtState).completion_specs⟩)))) :=
  c7_create_task_amended true c7task ⟨[{ c7task with completion_spec := none }], []⟩

/-! ### Claim C8 — agent registry (`active_agents` table) -/

/-- A row of the `active_agents` table (`started_at` and the autoincrement
rowid are not read by any registry operation and are omitted). -/
structure ActiveAgentRow where
  task_id : String
  agent_type : String
  slot : Nat
  pid : Option Nat
deriving DecidableEq, Repr

/-- Slot auto-assignment in `register_agent`: `for s in range(1, 7)`, first
`s` not among the used slots. -/
def first_free_slot (rows : List ActiveAgentRow) : Option Nat :=
  (List.range' 1 6).find? (fun s => !(rows.any (fun r => r.slot == s)))

/-- `Database.register_agent` as called by the pipeline and the CLI
(`slot=None`, auto-assigned): pick the first free slot — raising, with the
state unchanged, when all six are taken — then `INSERT OR REPLACE` on
`UNIQUE(slot)`, which deletes any row holding that slot and appends the
new row.  No existing row of the same `task_id` is removed. -/
def register_agent (rows : List ActiveAgentRow) (task_id agent_type : String)
    (pid : Option Nat) : List ActiveAgentRow :=
  match first_free_slot rows with
  | none => rows
  | some s =>
    rows.filter (fun r => !(r.slot == s)) ++ [⟨task_id, agent_type, s, pid⟩]

/-- `Database.deregister_agent(task_id=…)`. -/
def deregister_agent_by_task (rows : List ActiveAgentRow) (task_id : String) :
    List ActiveAgentRow :=
  rows.filter (fun r => !(r.task_id == task_id))

/-- `Database.deregister_agent(slot=…)`. -/
def deregister_agent_by_slot (rows : List ActiveAgentRow) (slot : Nat) :
    List ActiveAgentRow :=
  rows.filter (fun r => !(r.slot == slot))

/-- `Database.cleanup_stale_agents`: over a snapshot of the rows,
deregister by slot every row whose `pid` is set and whose process is gone
(`alive` models the signal-0 probe); rows without a `pid` are never
cleaned. -/
def cleanup_stale_agents (alive : Nat → Bool) (rows : List ActiveAgentRow) :
    List ActiveAgentRow :=
  (rows.filter (fun r => match r.pid with
      | some p => !(alive p)
      | none => false)).foldl
    (fun acc r => deregister_agent_by_slot acc r.slot) rows

/-- The agent-registry operations named by the claim. -/
inductive RegOp
| register (task_id agent_type : String) (pid : Option Nat)
| deregister_task (task_id : String)
| deregister_slot (slot : Nat)
| cleanup (alive : Nat → Bool)

def reg_step (rows : List ActiveAgentRow) : RegOp → List ActiveAgentRow
  | RegOp.register task_id agent_type pid => register_agent rows task_id agent_type pid
  | RegOp.deregister_task task_id => deregister_agent_by_task rows task_id
  | RegOp.deregister_slot slot => deregister_agent_by_slot rows slot
  | RegOp.cleanup alive => cleanup_stale_agents alive rows

/-- States reachable through the registry operations, from the empty table. -/
def run_ops (ops : List RegOp) : List ActiveAgentRow :=
  ops.foldl reg_step []

def c8ops : List RegOp :=
  [RegOp.register "t1" "coder" none, RegOp.register "t1" "reviewer" none]

/-- C8, counterexample: registering two agents for the same task leaves
two ActiveAgent rows with `task_id = "t1"` — `register_agent` never
removes an existing row of the same task, so at-most-one-per-task is not
an invariant of the registry operations. -/
theorem c8_counterexample :
    (run_ops c8ops).map ActiveAgentRow.task_id = ["t1", "t1"] ∧
      ¬ ((run_ops c8ops).map ActiveAgentRow.task_id).Nodup := by
  constructor <;> decide

/-- The slot part of the registry invariant: slots pairwise distinct and in
`{1..6}`. -/
def RegInv (rows : List ActiveAgentRow) : Prop :=
  (rows.map ActiveAgentRow.slot).Nodup ∧ ∀ r ∈ rows, 1 ≤ r.slot ∧ r.slot ≤ 6

theorem regInv_filter (rows : List ActiveAgentRow) (p : ActiveAgentRow → Bool)
    (h : RegInv rows) : RegInv (rows.filter p) := by
  constructor
  · exact List.Nodup.sublist
      (List.Sublist.map ActiveAgentRow.slot (List.filter_sublist rows)) h.1
  · intro r hr
    exact h.2 r (List.mem_of_mem_filter hr)

theorem register_agent_inv (rows : List ActiveAgentRow)
    (task_id agent_type : String) (pid : Option Nat) (h : RegInv rows) :
    RegInv (register_agent rows task_id agent_type pid) := by
  unfold register_agent
  rcases hf : first_free_slot rows with _ | s
  · exact h
  · have hmem : s ∈ List.range' 1 6 := List.mem_of_find?_eq_some hf
    have hbound : 1 ≤ s ∧ s < 1 + 6 := List.mem_range'_1.mp hmem
    constructor
    · rw [List.map_append, List.nodup_append]
      refine ⟨(regInv_filter rows _ h).1, List.nodup_singleton s, ?_⟩
      intro x hx hxs
      rw [List.mem_singleton.mp hxs] at hx
      obtain ⟨r, hr, hreq⟩ := List.mem_map.mp hx
      have hp := (List.mem_filter.mp hr).2
      rw [Bool.not_eq_eq_eq_not, Bool.not_true] at hp
      exact absurd (beq_iff_eq.mpr hreq) (by simp [hp])
    · intro r hr
      rcases List.mem_append.mp hr with hmem2 | hmem2
      · exact h.2 r (List.mem_of_mem_filter hmem2)
      · rw [List.mem_singleton.mp hmem2]
        show 1 ≤ s ∧ s ≤ 6
        omega

theorem foldl_dereg_slot_inv (stale : List ActiveAgentRow) :
    ∀ rows, RegInv rows →
      RegInv (stale.foldl (fun acc r => deregister_agent_by_slot acc r.slot) rows) := by
  induction stale with
  | nil => intro rows h; exact h
  | cons r rest ih =>
    intro rows h
    rw [List.foldl_cons]
    exact ih _ (regInv_filter rows _ h)

theorem reg_step_inv (rows : List ActiveAgentRow) (op : RegOp) (h : RegInv rows) :
    RegInv (reg_step rows op) := by
  rcases op with ⟨task_id, agent_type, pid⟩ | task_id | slot | alive
  · exact register_agent_inv rows task_id agent_type pid h
  · exact regInv_filter rows _ h
  · exact regInv_filter rows _ h
  · exact foldl_dereg_slot_inv _ rows h

theorem foldl_reg_step_inv :
    ∀ (ops : List RegOp) (rows : List ActiveAgentRow), RegInv rows →
      RegInv (ops.foldl reg_step rows) := by
  intro ops
  induction ops with
  | nil => intro rows h; exact h
  | cons op rest ih =>
    intro rows h
    exact ih _ (reg_step_inv rows op h)

/-- C8 (amended): in every store state reachable through the agent-registry
operations with auto-assigned slots, the slots of the active rows lie in
`{1..6}` and are pairwise distinct; at-most-one-row-per-`task_id`, however,
is not maintained — `register_agent` can add a second row for a task
already registered. -/
theorem c8_registry_slots_amended (ops : List RegOp) :
    ((run_ops ops).map ActiveAgentRow.slot).Nodup ∧
      ∀ r ∈ run_ops ops, 1 ≤ r.slot ∧ r.slot ≤ 6 :=
  foldl_reg_step_inv ops []
    ⟨List.nodup_nil, fun r hr => absurd hr (List.not_mem_nil r)⟩

/-! ### Claim C9 — tier-2 per-file conflict resolution (`orchestration/merge.py`) -/

/-- `ConflictOnlyAIMerge._resolve_file_conflicts` as a function of the
conflicted file content and the agent call's outcome (`none` models a
failed `_run_claude_resolution`; `some resolved` its cleaned-up output).
Returns the success flag and the file content afterwards: a file without a
`<<<<<<< HEAD` marker is reported resolved untouched; a failed agent call
or a validation rejection leaves the file untouched; otherwise the
resolved output is written.  Note the validation tokens carry a trailing
space on `<<<<<<< ` and `>>>>>>> `, while `=======` is checked bare. -/
def resolve_file_conflicts (conflicted : List Char)
    (claude_result : Option (List Char)) : Bool × List Char :=
  if containsSub conflicted "<<<<<<< HEAD".toList then
    match claude_result with
    | none => (false, conflicted)
    | some resolved =>
      if containsSub resolved "<<<<<<< ".toList
          || containsSub resolved "=======".toList
          || containsSub resolved ">>>>>>> ".toList then (false, conflicted)
      else (true, resolved)
  else (true, conflicted)

def c9conflicted : List Char :=
  "<<<<<<< HEAD\na\n=======\nb\n>>>>>>> task-x\n".toList

def c9resolved : List Char := "a<<<<<<<b".toList

/-- C9, counterexample: agent output containing the token `<<<<<<<`
without a trailing space passes the validation (which checks
`"<<<<<<< "` with the space) and is written to the conflicted file —
contradicting the claim that any output containing `<<<<<<<` is
rejected. -/
theorem c9_counterexample :
    resolve_file_conflicts c9conflicted (some c9resolved) = (true, c9resolved) ∧
      containsSub c9resolved "<<<<<<<".toList = true := by
  constructor <;> decide

/-- C9 (amended): for a file with conflict markers, the agent's resolved
content is rejected — and the conflicted file left untouched — exactly
when it contains `"<<<<<<< "` (with trailing space), `"======="`, or
`">>>>>>> "` (with trailing space); content free of those three exact
tokens is written to the file (and then staged by the caller). -/
theorem c9_marker_validation_amended (conflicted resolved : List Char)
    (h : containsSub conflicted "<<<<<<< HEAD".toList = true) :
    ((containsSub resolved "<<<<<<< ".toList
        || containsSub resolved "=======".toList
        || containsSub resolved ">>>>>>> ".toList) = true →
      resolve_file_conflicts conflicted (some resolved) = (false, conflicted)) ∧
    ((containsSub resolved "<<<<<<< ".toList
        || containsSub resolved "=======".toList
        || containsSub resolved ">>>>>>> ".toList) = false →
      resolve_file_conflicts conflicted (some resolved) = (true, resolved)) := by
  unfold resolve_file_conflicts
  rw [if_pos h]
  constructor
  · intro hm
    exact if_pos hm
  · intro hm
    exact if_neg (by rw [hm]; exact Bool.false_ne_true)

/-- Witness for C9 (amended): a marker-containing file and the clean
resolution `merged`. -/
theorem c9_marker_validation_amended_witness :
    ((containsSub "merged".toList "<<<<<<< ".toList
        || containsSub "merged".toList "=======".toList
        || containsSub "merged".toList ">>>>>>> ".toList) = true →
      resolve_file_conflicts c9conflicted (some "merged".toList) =
        (false, c9conflicted)) ∧
    ((containsSub "merged".toList "<<<<<<< ".toList
        || containsSub "merged".toList "=======".toList
        || containsSub "merged".toList ">>>>>>> ".toList) = false →
      resolve_file_conflicts c9conflicted (some "merged".toList) =
        (true, "merged".toList)) :=
  c9_marker_validation_amended c9conflicted "merged".toList (by decide)
